import Mathlib

/-!
# Verification of the job-control core of the `student0` shell (hw3)

Shallow embedding of the shell's job-control modules:

* `process_list.c`   — the doubly linked job list with a sentinel node
* `process_management.c` — grouping, foreground arbitration, waiting
* `shell_signal.c`   — ignored-signal configuration and reset
* `program.c`, `program_piping.c`, `program_redirection.c` — process launch
* `shell_command.c`  — the `wait`, `fg`, `bg` builtins

Modelling conventions:

* A C `pid_t` array terminated by `-1` is a `List Int` that contains the
  `-1` terminator; traversals stop at the first `-1`, exactly like the
  C loops (`activePids`).
* The job list of `process_list.c` is modelled at the level of node
  values: the list of the `processID` fields in order from the head.
  The sentinel ("root") node created by `initialize_process_list` is the
  final `-1` element.  Node identity is positional; `remove_process_node`
  on a node becomes removal of the first occurrence of its pid, which is
  the node `find_process` selects.
* System calls performed by the shell are recorded as an ordered trace of
  `Event`s; their results are supplied by an `OS` oracle so that every
  error branch of the source is representable.  A child process's own
  actions (between `fork` and `execv`) are modelled as the trace that
  child emits.
* `NULL` pointer arguments are modelled with `Option` where the source
  checks for them and the check is reachable from the verified claims.
-/

namespace Shell

/-- Linux signal numbers used by the shell. -/
def SIGINT : Int := 2
def SIGQUIT : Int := 3
def SIGCONT : Int := 18
def SIGSTOP : Int := 19
def SIGTSTP : Int := 20
def SIGTTOU : Int := 22

/-- `IGNORED_SIGNALS` from `shell_signal.c`: SIGINT, SIGQUIT, SIGTSTP. -/
def ignoredSignals : List Int := [SIGINT, SIGQUIT, SIGTSTP]

/-- Results of the OS primitives consumed by the shell, supplied as an
oracle so every success/failure branch of the source is representable. -/
structure OS where
  /-- `getpid()` for the process under consideration. -/
  selfPid : Int
  /-- `getpgid(pid)`; `-1` models failure. -/
  pgidOf : Int → Int
  /-- value returned by `waitpid(pid, NULL, WUNTRACED)`. -/
  waitRet : Int → Int
  /-- successive statuses reported by the blocking status query
  (`waitpid(pid, &status, WUNTRACED)`) on one pid; an exhausted
  sequence models a query failure (`-1`). -/
  waitStatusSeq : Int → List Int
  /-- result of `setpgid(pid, pgid)`. -/
  setpgidRet : Int → Int → Int
  /-- result of `tcsetpgrp(fd, pgid)`. -/
  tcsetRet : Int → Int → Int
  /-- result of `kill(pid, sig)` (negative pid targets a group). -/
  killRet : Int → Int → Int
  /-- result of the n-th `fork()` call. -/
  forkRet : Nat → Int
  /-- `(read end, write end)` of the n-th `pipe()` call. -/
  pipeFds : Nat → Int × Int
  /-- result of `dup2(oldFd, newFd)`. -/
  dup2Ret : Int → Int → Int
  /-- file descriptor returned by `open` on a redirection file. -/
  openRet : String → Int
  /-- result of `sigaction` on one signal. -/
  sigactionRet : Int → Int
  /-- the executable-path resolver (`resolve_executable_full_path`). -/
  resolvePath : String → Option String

/-- One OS interaction performed by the shell or by one of its children,
in program order. `tcsetpgrp` records whether the call succeeded, since
only a successful call changes the terminal's foreground group. -/
inductive Event where
  | waitpid (pid : Int)
  | setpgid (pid pgid : Int)
  | tcsetpgrp (fd pgid : Int) (ok : Bool)
  | signal (pid sig : Int)
  | forkCall (ret : Int)
  | pipeCall (readFd writeFd : Int)
  | dup2 (oldFd newFd : Int)
  | closeFd (fd : Int)
  | openFile (name : String)
  | sigactionIgnore (sig : Int)
  | sigactionRestore (sig : Int)
  | sigactionDefault (sig : Int)
  | execv (path : String)
  | exitCall (status : Int)
  deriving DecidableEq, Repr

/-- The pids a C loop `for (i = 0; pids[i] != -1; i++)` visits. -/
def activePids (l : List Int) : List Int := l.takeWhile (· ≠ -1)

/-! ## `process_list.c` — the job list -/

/-- `initialize_process_list`: the list holds only the sentinel node,
whose process ID is `-1`. -/
def initProcessList : List Int := [-1]

/-- `add_process`: initializes the list if needed, then prepends a new
node before the current head (`process_list.c:171`). -/
def addProcess (l : List Int) (p : Int) : List Int :=
  match l with
  | [] => [p, -1]
  | _ => p :: l

/-- `get_latest_process` (`process_list.c:95`): the head node, unless the
head is the sentinel (or the list is uninitialized). -/
def getLatestProcess (l : List Int) : Option Int :=
  match l with
  | [] => none
  | x :: _ => if x = -1 then none else some x

/-- `get_next_process` (`process_list.c:127`): the node after position
`i`, refusing to return the root (sentinel) node. -/
def getNextProcessVal (l : List Int) (i : Nat) : Option Int :=
  match l.get? (i + 1) with
  | some v => if v = -1 then none else some v
  | none => none

/-- `find_process` (`process_list.c:146`): first node holding `p`; the
root node is never returned (`p = -1` is rejected up front). -/
def findProcess (l : List Int) (p : Int) : Option Int :=
  if p = -1 then none else l.find? (fun x => x = p)

/-- `remove_process_node` (`process_list.c:198`): unlinks the given node
unless it is the root (sentinel) node. At the value level the node found
by `find_process` is the first occurrence of its pid. -/
def removeProcessNodeVal (l : List Int) (p : Int) : List Int :=
  if p = -1 then l else l.erase p

/-- `remove_process` (`process_list.c:232`): find then unlink; absent
pids (and `-1`) leave the list unchanged. -/
def removeProcess (l : List Int) (p : Int) : List Int :=
  match findProcess l p with
  | none => l
  | some v => removeProcessNodeVal l v

/-- The sentinel discipline of the job list: the list ends in the
sentinel node (pid `-1`) and no other node carries `-1`. -/
def SentinelInv (l : List Int) : Prop :=
  ∃ js : List Int, l = js ++ [-1] ∧ (-1 : Int) ∉ js

/-! ## Sentinel-invariant lemmas -/

theorem erase_append_sentinel (js : List Int) (p : Int) (hp : p ≠ -1) :
    (js ++ [-1]).erase p = js.erase p ++ [-1] := by
  induction js with
  | nil =>
      simp [List.erase_cons]
      intro h
      exact absurd h.symm hp
  | cons a rest ih =>
      by_cases h : a = p
      · simp [List.erase_cons, h]
      · simp only [List.cons_append, List.erase_cons]
        have : (a == p) = false := by simp [h]
        simp [this, ih]

theorem sentinel_inv_not_nil {l : List Int} (h : SentinelInv l) : l ≠ [] := by
  obtain ⟨js, rfl, -⟩ := h
  simp

/-- Claim C10: From initialization onward, the shell's job list always
terminates in a sentinel node whose process ID is -1, and every list
operation preserves this: `add_process` keeps the sentinel as the tail,
`remove_process_node` refuses to delete it, `get_latest_process` returns
null exactly when the sentinel is the only node, and the sentinel is
never returned as a job entry. -/
theorem job_list_sentinel_discipline (l : List Int) (p : Int)
    (hInv : SentinelInv l) (hp : p ≠ -1) :
    SentinelInv initProcessList
    ∧ SentinelInv (addProcess l p)
    ∧ removeProcessNodeVal l (-1) = l
    ∧ SentinelInv (removeProcessNodeVal l p)
    ∧ (getLatestProcess l = none ↔ l = initProcessList)
    ∧ (∀ q : Int, findProcess l q ≠ some (-1))
    ∧ (∀ i : Nat, getNextProcessVal l i ≠ some (-1))
    ∧ getLatestProcess l ≠ some (-1) := by
  obtain ⟨js, rfl, hjs⟩ := hInv
  refine ⟨⟨[], rfl, by simp⟩, ?_, ?_, ?_, ?_, ?_, ?_, ?_⟩
  · -- add_process prepends before the head; the sentinel stays the tail
    cases js with
    | nil => exact ⟨[p], rfl, by simpa using Ne.symm hp⟩
    | cons a rest =>
        exact ⟨p :: a :: rest, rfl, by
          simp only [List.mem_cons, not_or]
          refine ⟨fun h => hp h.symm, ?_⟩
          simpa [List.mem_cons, not_or] using hjs⟩
  · simp [removeProcessNodeVal]
  · -- removing a non-sentinel node keeps the sentinel as the tail
    refine ⟨js.erase p, ?_, fun h => hjs (js.erase_subset p h)⟩
    simp [removeProcessNodeVal, hp, erase_append_sentinel js p hp]
  · -- get_latest_process is null exactly on the sentinel-only list
    cases js with
    | nil => simp [getLatestProcess, initProcessList]
    | cons a rest =>
        have ha : a ≠ -1 := fun h => hjs (by simp [h])
        have hlen : (a :: rest) ++ [-1] ≠ initProcessList := by
          intro h
          have := congrArg List.length h
          simp [initProcessList] at this
        simp [getLatestProcess, initProcessList, ha, hlen]
  · -- find_process never returns the sentinel
    intro q
    by_cases hq : q = -1
    · simp [findProcess, hq]
    · simp only [findProcess, hq, if_neg hq]
      cases hfind : (js ++ [-1]).find? (fun x => x = q) with
      | none => simp
      | some v =>
          have hv : v = q := by simpa using List.find?_some hfind
          simp [hv, hq]
  · -- get_next_process never returns the sentinel
    intro i
    simp only [getNextProcessVal]
    cases (js ++ [-1]).get? (i + 1) with
    | none => simp
    | some v =>
        by_cases hv : v = -1 <;> simp [hv]
  · -- get_latest_process never returns the sentinel
    cases js with
    | nil => simp [getLatestProcess]
    | cons a rest =>
        have ha : a ≠ -1 := fun h => hjs (by simp [h])
        simp [getLatestProcess, ha]

/-- Witness for C10 at the concrete job list `[5, -1]` and pid `7`. -/
theorem job_list_sentinel_discipline_witness :
    SentinelInv (addProcess [5, -1] 7)
    ∧ (getLatestProcess [5, -1] = none ↔ ([5, -1] : List Int) = initProcessList) :=
  ⟨(job_list_sentinel_discipline [5, -1] 7 ⟨[5], rfl, by decide⟩ (by decide)).2.1,
   (job_list_sentinel_discipline [5, -1] 7 ⟨[5], rfl, by decide⟩ (by decide)).2.2.2.2.1⟩

/-! ## `process_management.c` — grouping, foreground, waiting -/

/-- `group_processes` (`process_management.c:205`): assign every pid of
the `-1`-terminated list to the group of the first pid. A failing
`setpgid` is only reported; the loop continues and the group ID is
returned regardless. Returns `(trace, groupID)`. -/
def groupProcesses (os : OS) (pids : Option (List Int)) : List Event × Int :=
  match pids with
  | none => ([], -1)
  | some l =>
    match l.head? with
    | none => ([], -1)
    | some p0 =>
      if p0 = -1 then ([], -1)
      else ((activePids l).map (fun p => Event.setpgid p p0), p0)

/-- `wait_till_all_processes_pause_or_exit` (`process_management.c:374`):
`waitpid(pid, NULL, WUNTRACED)` on each pid in order, returning `-1` as
soon as one call does not report the awaited pid. Returns
`(trace, result)`. -/
def waitTillAllPause (os : OS) (pids : Option (List Int)) : List Event × Int :=
  match pids with
  | none => ([], 0)
  | some l => go (activePids l)
where
  go : List Int → List Event × Int
  | [] => ([], 0)
  | p :: rest =>
    if os.waitRet p ≠ p then ([Event.waitpid p], -1)
    else
      let r := go rest
      (Event.waitpid p :: r.1, r.2)

/-- `start_process_group` (`process_management.c:339`):
`kill(-groupID, SIGCONT)`. -/
def startProcessGroup (os : OS) (g : Int) : List Event × Int :=
  ([Event.signal (-g) SIGCONT], if os.killRet (-g) SIGCONT = -1 then -1 else 0)

/-- `start_process` (`process_management.c:355`): `kill(pid, SIGCONT)`. -/
def startProcess (os : OS) (p : Int) : List Event × Int :=
  ([Event.signal p SIGCONT], if os.killRet p SIGCONT = -1 then -1 else 0)

/-- `set_foreground_process_group` (`process_management.c:259`). `fgSt`
models the static `FOREGROUND_PROCESS_GROUP_ID`. When the caller is not
currently the foreground group, a temporary SIGTTOU-ignoring handler is
installed around `tcsetpgrp` and then restored. Returns
`(trace, result, new fgSt)`. -/
def setForegroundProcessGroup (os : OS) (fgSt : Int) (fd g : Int) :
    List Event × Int × Int :=
  let callerPgid := os.pgidOf os.selfPid
  if callerPgid = fgSt then
    let tcOk := os.tcsetRet fd g ≠ -1
    let ev := [Event.tcsetpgrp fd g tcOk]
    if tcOk then (ev, os.tcsetRet fd g, g) else (ev, -1, fgSt)
  else
    if os.sigactionRet SIGTTOU = -1 then
      ([Event.sigactionIgnore SIGTTOU], -1, fgSt)
    else
      let tcOk := os.tcsetRet fd g ≠ -1
      let ev := [Event.sigactionIgnore SIGTTOU, Event.tcsetpgrp fd g tcOk]
      if tcOk then
        -- the restoring sigaction's result is what the function returns,
        -- but the foreground bookkeeping is updated regardless
        (ev ++ [Event.sigactionRestore SIGTTOU], os.sigactionRet SIGTTOU, g)
      else (ev, -1, fgSt)

/-- `manage_shell_subprocesses` (`process_management.c:447`): wait for
all subprocesses to stop themselves, group them, then either resume the
group in the background, or hand it the terminal foreground, resume it,
wait for it to settle and reclaim the foreground. The `add_process`
registration loop of the source (lines 469-474) is commented out, so the
job list `jobs` passes through untouched. Returns
`(trace, result, new fgSt, new jobs)`. -/
def manageShellSubprocesses (os : OS) (fgSt : Int) (jobs : List Int)
    (pids : Option (List Int)) (tIn tOut : Int) (bg : Bool) :
    List Event × Int × Int × List Int :=
  match pids with
  | none => ([], -1, fgSt, jobs)
  | some l =>
    let w := waitTillAllPause os (some l)
    if w.2 = -1 then (w.1, -1, fgSt, jobs)
    else
      let gp := groupProcesses os (some l)
      if bg then
        let s := startProcessGroup os gp.2
        (w.1 ++ gp.1 ++ s.1, s.2, fgSt, jobs)
      else
        let f := setForegroundProcessGroup os fgSt tIn gp.2
        if f.2.1 = -1 then (w.1 ++ gp.1 ++ f.1, -1, f.2.2, jobs)
        else
          let s := startProcessGroup os gp.2
          if s.2 = -1 then (w.1 ++ gp.1 ++ f.1 ++ s.1, -1, f.2.2, jobs)
          else
            let w2 := waitTillAllPause os (some l)
            if w2.2 = -1 then
              (w.1 ++ gp.1 ++ f.1 ++ s.1 ++ w2.1, -1, f.2.2, jobs)
            else
              let f2 := setForegroundProcessGroup os f.2.2 tIn
                (os.pgidOf os.selfPid)
              (w.1 ++ gp.1 ++ f.1 ++ s.1 ++ w2.1 ++ f2.1,
               if f2.2.1 = -1 then -1 else 0, f2.2.2, jobs)

/-! ## Trace predicates -/

/-- `e` occurs strictly before `f` in the trace `l`. -/
def precedes (e f : Event) (l : List Event) : Prop :=
  ∃ i j : Nat, i < j ∧ l.get? i = some e ∧ l.get? j = some f

/-- The terminal's foreground process group after a trace: each
successful `tcsetpgrp` call replaces it. -/
def finalFg (fg0 : Int) (tr : List Event) : Int :=
  tr.foldl (fun a e =>
    match e with
    | Event.tcsetpgrp _ g true => g
    | _ => a) fg0

theorem precedes_of_mem_append {e f : Event} {xs ys : List Event}
    (he : e ∈ xs) (hf : f ∈ ys) : precedes e f (xs ++ ys) := by
  obtain ⟨i, hi⟩ := List.mem_iff_get?.1 he
  obtain ⟨j, hj⟩ := List.mem_iff_get?.1 hf
  have hilt : i < xs.length := by
    by_contra h
    rw [List.get?_eq_none.mpr (Nat.le_of_not_lt h)] at hi
    exact Option.noConfusion hi
  have hjlt : j < ys.length := by
    by_contra h
    rw [List.get?_eq_none.mpr (Nat.le_of_not_lt h)] at hj
    exact Option.noConfusion hj
  refine ⟨i, xs.length + j, by omega, ?_, ?_⟩
  · rw [List.get?_append hilt]; exact hi
  · rw [List.get?_append_right (by omega)]
    simpa using hj

theorem precedes_append_right (xs : List Event) {e f : Event} {ys : List Event}
    (h : precedes e f ys) : precedes e f (xs ++ ys) := by
  obtain ⟨i, j, hij, hi, hj⟩ := h
  refine ⟨xs.length + i, xs.length + j, by omega, ?_, ?_⟩
  · rw [List.get?_append_right (by omega)]; simpa using hi
  · rw [List.get?_append_right (by omega)]; simpa using hj

/-- An OS oracle on which every primitive succeeds. -/
def osAllOk : OS where
  selfPid := 1000
  pgidOf := fun p => p
  waitRet := fun p => p
  waitStatusSeq := fun _ => [0]
  setpgidRet := fun _ _ => 0
  tcsetRet := fun _ _ => 0
  killRet := fun _ _ => 0
  forkRet := fun n => 100 + n
  pipeFds := fun n => (10 + 2 * n, 11 + 2 * n)
  dup2Ret := fun _ n => n
  openRet := fun _ => 5
  sigactionRet := fun _ => 0
  resolvePath := fun s => some ("/bin/" ++ s)

/-- Claim C1 (code bug): the registration step of
`manage_shell_subprocesses` — its own doc comment's step 2, "add all
subprocesses to the shell subprocess list" — is commented out in the
implementation (`process_management.c:469-474`). Hence no launch ever
adds a Job Entry: the job list always passes through unchanged, and in
particular a background launch completes successfully while leaving the
Job Table empty. -/
theorem background_launch_registers_no_jobs :
    (∀ (os : OS) (fgSt : Int) (jobs : List Int) (pids : Option (List Int))
        (tIn tOut : Int) (bg : Bool),
      (manageShellSubprocesses os fgSt jobs pids tIn tOut bg).2.2.2 = jobs)
    ∧ (manageShellSubprocesses osAllOk (-1) [] (some [5, 7, -1]) 0 1 true).2.1 = 0
    ∧ (manageShellSubprocesses osAllOk (-1) [] (some [5, 7, -1]) 0 1 true).2.2.2
        = [] := by
  refine ⟨?_, by decide, by decide⟩
  intro os fgSt jobs pids tIn tOut bg
  cases pids with
  | none => rfl
  | some l =>
      simp only [manageShellSubprocesses]
      repeat' split
      all_goals rfl

/-! ## Helper lemmas for the trace of `manage_shell_subprocesses` -/

theorem wait_go_events (os : OS) (xs : List Int) :
    ∀ e ∈ (waitTillAllPause.go os xs).1, ∃ p, e = Event.waitpid p := by
  induction xs with
  | nil => simp [waitTillAllPause.go]
  | cons p rest ih =>
      intro e he
      by_cases h : os.waitRet p = p
      · simp [waitTillAllPause.go, h] at he
        rcases he with rfl | hmem
        · exact ⟨p, rfl⟩
        · exact ih e hmem
      · simp [waitTillAllPause.go, h] at he
        exact ⟨p, he⟩

theorem wait_go_ok (os : OS) (xs : List Int)
    (h : (waitTillAllPause.go os xs).2 ≠ -1) :
    (waitTillAllPause.go os xs).1 = xs.map Event.waitpid := by
  induction xs with
  | nil => simp [waitTillAllPause.go]
  | cons p rest ih =>
      by_cases hw : os.waitRet p = p
      · have h2 : (waitTillAllPause.go os rest).2 ≠ -1 := by
          simpa [waitTillAllPause.go, hw] using h
        simp [waitTillAllPause.go, hw, ih h2]
      · exact absurd (by simp [waitTillAllPause.go, hw]) h

theorem signal_not_mem_setFg (os : OS) (fgSt fd g a b : Int) :
    Event.signal a b ∉ (setForegroundProcessGroup os fgSt fd g).1 := by
  unfold setForegroundProcessGroup
  dsimp only
  repeat' split
  all_goals simp

theorem signal_not_mem_wait_go (os : OS) (xs : List Int) (a b : Int) :
    Event.signal a b ∉ (waitTillAllPause.go os xs).1 := by
  intro hmem
  obtain ⟨p, hp⟩ := wait_go_events os xs _ hmem
  exact Event.noConfusion hp

theorem signal_not_mem_setpgid_map (l : List Int) (g a b : Int) :
    Event.signal a b ∉ l.map (fun p => Event.setpgid p g) := by
  intro hmem
  obtain ⟨p, -, hp⟩ := List.mem_map.1 hmem
  exact Event.noConfusion hp

theorem signal_not_mem_waitpid_map (l : List Int) (a b : Int) :
    Event.signal a b ∉ l.map Event.waitpid := by
  intro hmem
  obtain ⟨p, -, hp⟩ := List.mem_map.1 hmem
  exact Event.noConfusion hp

theorem waitTillAllPause_some (os : OS) (l : List Int) :
    waitTillAllPause os (some l) = waitTillAllPause.go os (activePids l) := rfl

theorem grouped_before_resumed_of_shape (tr : List Event)
    (W G X S Y : List Event) (A : List Int) (p0 : Int)
    (hW : W = A.map Event.waitpid)
    (hG : G = A.map (fun p => Event.setpgid p p0))
    (hS : Event.signal (-p0) SIGCONT ∈ S)
    (htr : tr = W ++ G ++ X ++ S ++ Y) :
    (∀ p ∈ A, ∀ q ∈ A, precedes (Event.waitpid p) (Event.setpgid q p0) tr)
    ∧ (∀ p ∈ A, precedes (Event.setpgid p p0) (Event.signal (-p0) SIGCONT) tr) := by
  subst htr
  constructor
  · intro p hp q hq
    have h1 : Event.waitpid p ∈ W := by
      rw [hW]; exact List.mem_map_of_mem _ hp
    have h2 : Event.setpgid q p0 ∈ G ++ X ++ S ++ Y := by
      refine List.mem_append_left _ (List.mem_append_left _ (List.mem_append_left _ ?_))
      rw [hG]; exact List.mem_map_of_mem _ hq
    simpa [List.append_assoc] using
      precedes_of_mem_append h1 (by simpa [List.append_assoc] using h2)
  · intro p hp
    have h1 : Event.setpgid p p0 ∈ G := by
      rw [hG]; exact List.mem_map_of_mem _ hp
    have h2 : Event.signal (-p0) SIGCONT ∈ X ++ (S ++ Y) :=
      List.mem_append_right _ (List.mem_append_left _ hS)
    have hmid : precedes (Event.setpgid p p0) (Event.signal (-p0) SIGCONT)
        (G ++ (X ++ (S ++ Y))) := precedes_of_mem_append h1 h2
    simpa [List.append_assoc] using precedes_append_right W hmid

/-- Claim C2: for every launched Pipeline the coordinator first blocks
until every member has stopped itself (`waitpid` with `WUNTRACED` per
member), then assigns all members to one process group identified by the
first member's ID (`setpgid` per member), and only after that sends
`SIGCONT` to the group: whenever the continue signal appears in the
trace, every member's `waitpid` precedes every member's `setpgid`, and
every `setpgid` precedes the continue signal. -/
theorem pipeline_grouped_before_resumed
    (os : OS) (fgSt : Int) (jobs : List Int) (l : List Int)
    (tIn tOut : Int) (bg : Bool) (g : Int)
    (hk : Event.signal (-g) SIGCONT ∈
      (manageShellSubprocesses os fgSt jobs (some l) tIn tOut bg).1) :
    (∀ p ∈ activePids l, ∀ q ∈ activePids l,
        precedes (Event.waitpid p) (Event.setpgid q g)
          (manageShellSubprocesses os fgSt jobs (some l) tIn tOut bg).1)
    ∧ (∀ p ∈ activePids l,
        precedes (Event.setpgid p g) (Event.signal (-g) SIGCONT)
          (manageShellSubprocesses os fgSt jobs (some l) tIn tOut bg).1)
    ∧ (activePids l ≠ [] → l.head? = some g) := by
  by_cases hw : (waitTillAllPause os (some l)).2 = -1
  · -- the coordinator aborts before grouping: no continue signal exists
    exfalso
    simp only [manageShellSubprocesses, hw, if_pos rfl] at hk
    rw [waitTillAllPause_some] at hk
    exact signal_not_mem_wait_go os (activePids l) (-g) SIGCONT
      (by simpa [waitTillAllPause_some] using hk)
  · have hW : (waitTillAllPause os (some l)).1
        = (activePids l).map Event.waitpid := by
      rw [waitTillAllPause_some]
      exact wait_go_ok os (activePids l) (by simpa [waitTillAllPause_some] using hw)
    rcases hh : l.head? with - | p0
    · -- empty token of pids: nothing is active, all goals are vacuous
      have hl : l = [] := List.head?_eq_none_iff.mp hh
      subst hl
      refine ⟨?_, ?_, ?_⟩ <;> simp [activePids]
    · by_cases hp0 : p0 = -1
      · -- the array starts with the terminator: nothing is active
        have hA : activePids l = [] := by
          cases l with
          | nil => simp at hh
          | cons a tl =>
              simp at hh
              subst hh
              simp [activePids, List.takeWhile, hp0]
        refine ⟨?_, ?_, ?_⟩ <;> simp [hA]
      · -- main case: the group is p0, the first member
        have hgp : groupProcesses os (some l)
            = ((activePids l).map (fun p => Event.setpgid p p0), p0) := by
          simp [groupProcesses, hh, hp0]
        cases bg with
        | true =>
            have htr : (manageShellSubprocesses os fgSt jobs (some l) tIn tOut true).1
                = (activePids l).map Event.waitpid
                  ++ (activePids l).map (fun p => Event.setpgid p p0)
                  ++ [Event.signal (-p0) SIGCONT] := by
              simp [manageShellSubprocesses, hw, hgp, startProcessGroup, hW]
            have hg : g = p0 := by
              rw [htr] at hk
              rcases List.mem_append.1 hk with h | h
              · rcases List.mem_append.1 h with h | h
                · exact absurd h (signal_not_mem_waitpid_map _ _ _)
                · exact absurd h (signal_not_mem_setpgid_map _ _ _ _)
              · simp at h
                omega
            subst hg
            have := grouped_before_resumed_of_shape
              (manageShellSubprocesses os fgSt jobs (some l) tIn tOut true).1
              ((activePids l).map Event.waitpid)
              ((activePids l).map (fun p => Event.setpgid p g))
              [] [Event.signal (-g) SIGCONT] []
              (activePids l) g rfl rfl (by simp)
              (by simp [htr])
            exact ⟨this.1, this.2, fun _ => rfl⟩
        | false =>
            by_cases hf : (setForegroundProcessGroup os fgSt tIn p0).2.1 = -1
            · -- the foreground handoff failed: no continue signal exists
              exfalso
              have htr : (manageShellSubprocesses os fgSt jobs (some l) tIn tOut false).1
                  = (activePids l).map Event.waitpid
                    ++ (activePids l).map (fun p => Event.setpgid p p0)
                    ++ (setForegroundProcessGroup os fgSt tIn p0).1 := by
                simp [manageShellSubprocesses, hw, hgp, hf, hW]
              rw [htr] at hk
              rcases List.mem_append.1 hk with h | h
              · rcases List.mem_append.1 h with h | h
                · exact absurd h (signal_not_mem_waitpid_map _ _ _)
                · exact absurd h (signal_not_mem_setpgid_map _ _ _ _)
              · exact absurd h (signal_not_mem_setFg _ _ _ _ _ _)
            · by_cases hs : os.killRet (-p0) SIGCONT = -1
              · -- SIGCONT delivery failed: the continue event is still
                -- emitted after all the grouping events
                have htr : (manageShellSubprocesses os fgSt jobs (some l) tIn tOut false).1
                    = (activePids l).map Event.waitpid
                      ++ (activePids l).map (fun p => Event.setpgid p p0)
                      ++ (setForegroundProcessGroup os fgSt tIn p0).1
                      ++ [Event.signal (-p0) SIGCONT] := by
                  simp [manageShellSubprocesses, hw, hgp, hf, hW,
                    startProcessGroup, hs]
                have hg : g = p0 := by
                  rw [htr] at hk
                  rcases List.mem_append.1 hk with h | h
                  · rcases List.mem_append.1 h with h | h
                    · rcases List.mem_append.1 h with h | h
                      · exact absurd h (signal_not_mem_waitpid_map _ _ _)
                      · exact absurd h (signal_not_mem_setpgid_map _ _ _ _)
                    · exact absurd h (signal_not_mem_setFg _ _ _ _ _ _)
                  · simp at h
                    omega
                subst hg
                have := grouped_before_resumed_of_shape
                  (manageShellSubprocesses os fgSt jobs (some l) tIn tOut false).1
                  ((activePids l).map Event.waitpid)
                  ((activePids l).map (fun p => Event.setpgid p g))
                  (setForegroundProcessGroup os fgSt tIn g).1
                  [Event.signal (-g) SIGCONT] []
                  (activePids l) g rfl rfl (by simp)
                  (by simp [htr])
                exact ⟨this.1, this.2, fun _ => rfl⟩
              · -- the full foreground path
                have htr : (manageShellSubprocesses os fgSt jobs (some l) tIn tOut false).1
                    = (activePids l).map Event.waitpid
                      ++ (activePids l).map (fun p => Event.setpgid p p0)
                      ++ (setForegroundProcessGroup os fgSt tIn p0).1
                      ++ [Event.signal (-p0) SIGCONT]
                      ++ ((activePids l).map Event.waitpid
                          ++ (setForegroundProcessGroup os
                              (setForegroundProcessGroup os fgSt tIn p0).2.2 tIn
                              (os.pgidOf os.selfPid)).1) := by
                  simp [manageShellSubprocesses, hw, hgp, hf, hW,
                    startProcessGroup, hs, List.append_assoc]
                have hg : g = p0 := by
                  rw [htr] at hk
                  rcases List.mem_append.1 hk with h | h
                  · rcases List.mem_append.1 h with h | h
                    · rcases List.mem_append.1 h with h | h
                      · rcases List.mem_append.1 h with h | h
                        · exact absurd h (signal_not_mem_waitpid_map _ _ _)
                        · exact absurd h (signal_not_mem_setpgid_map _ _ _ _)
                      · exact absurd h (signal_not_mem_setFg _ _ _ _ _ _)
                    · simp at h
                      omega
                  · rcases List.mem_append.1 h with h | h
                    · exact absurd h (signal_not_mem_waitpid_map _ _ _)
                    · exact absurd h (signal_not_mem_setFg _ _ _ _ _ _)
                subst hg
                have := grouped_before_resumed_of_shape
                  (manageShellSubprocesses os fgSt jobs (some l) tIn tOut false).1
                  ((activePids l).map Event.waitpid)
                  ((activePids l).map (fun p => Event.setpgid p g))
                  (setForegroundProcessGroup os fgSt tIn g).1
                  [Event.signal (-g) SIGCONT]
                  ((activePids l).map Event.waitpid
                    ++ (setForegroundProcessGroup os
                        (setForegroundProcessGroup os fgSt tIn g).2.2 tIn
                        (os.pgidOf os.selfPid)).1)
                  (activePids l) g rfl rfl (by simp)
                  (by simp [htr])
                exact ⟨this.1, this.2, fun _ => rfl⟩

/-- Witness for C2: a concrete background launch of the pipeline
`[5, 7]`, where the continue signal is sent and every grouping event
precedes it. -/
theorem pipeline_grouped_before_resumed_witness :
    precedes (Event.setpgid 7 5) (Event.signal (-5) SIGCONT)
      (manageShellSubprocesses osAllOk (-1) [] (some [5, 7, -1]) 0 1 true).1 :=
  (pipeline_grouped_before_resumed osAllOk (-1) [] [5, 7, -1] 0 1 true 5
    (by decide)).2.1 7 (by decide)

/-! ## `shell_command.c` — the `fg` and `wait` builtins -/

/-- The shell's input file descriptor (`SHELL_INPUT_FILE_NUM`,
`shell_config.h`; standard input). -/
def SHELL_INPUT_FILE_NUM : Int := 0

/-- `WIFEXITED(status)` on Linux: the low seven bits are zero. -/
def wifexited (s : Int) : Bool := s % 128 = 0

/-- `WIFSTOPPED(status)` on Linux: the low byte is `0x7f`. -/
def wifstopped (s : Int) : Bool := s % 256 = 127

/-- `is_integer` (`helpers.c:147`): the non-negative integer value of an
all-digit string, `-1` otherwise (`atoi("") = 0`). -/
def isInteger (s : String) : Int :=
  if s.toList.all Char.isDigit then
    let n : Int := (s.toNat?.getD 0 : Nat)
    if 0 ≤ n then n else -1
  else -1

/-- Modelled from the spec: `wait_till_pause_or_exit` is called by
`cmd_wait` and `cmd_fg` (`shell_command.c:128,201`) but its definition
is not among the sources. Per the spec (§4.3 step 5, §4.4, §6) it is one
blocking state-change query (`waitpid(pid, &status, WUNTRACED)`)
returning the observed status, or `-1` if the query fails. The n-th
observation on one pid is drawn from `OS.waitStatusSeq`; an exhausted
sequence models a failing query. -/
def waitTillPauseOrExit (os : OS) (p : Int) (n : Nat) : Int :=
  ((os.waitStatusSeq p).get? n).getD (-1)

/-- The body of `cmd_fg` (`shell_command.c:153`) once the target pid is
determined: hand the terminal foreground over, send the resume signal
(its result is not checked, as in the source), block until the process
pauses or exits, drop it from the job list if it exited, and reclaim the
foreground for the shell's own group. The source passes the process ID
itself — not the group ID it just looked up — to
`set_foreground_process_group` (`shell_command.c:189`); the embedding
keeps that. Returns `(trace, result, new fgSt, new jobs)`. -/
def cmdFgRun (os : OS) (fgSt : Int) (jobs : List Int) (p : Int) :
    List Event × Int × Int × List Int :=
  if os.pgidOf p = -1 then ([], -1, fgSt, jobs)
  else
    let f := setForegroundProcessGroup os fgSt SHELL_INPUT_FILE_NUM p
    if f.2.1 = -1 then (f.1, -1, f.2.2, jobs)
    else
      let s := startProcess os p
      let st := waitTillPauseOrExit os p 0
      if st = -1 then (f.1 ++ s.1 ++ [Event.waitpid p], -1, f.2.2, jobs)
      else
        let jobs1 := if wifexited st then removeProcess jobs p else jobs
        let f2 := setForegroundProcessGroup os f.2.2 SHELL_INPUT_FILE_NUM
          (os.pgidOf os.selfPid)
        (f.1 ++ s.1 ++ [Event.waitpid p] ++ f2.1,
         if f2.2.1 = -1 then -1 else 0, f2.2.2, jobs1)

/-- `cmd_fg` (`shell_command.c:153`): with an argument, the pid is its
integer value; without one, the latest job (a no-op when the job list is
empty). -/
def cmdFg (os : OS) (fgSt : Int) (jobs : List Int) (arg : Option String) :
    List Event × Int × Int × List Int :=
  match arg with
  | some s =>
      let p := isInteger s
      if p = -1 then ([], -1, fgSt, jobs) else cmdFgRun os fgSt jobs p
  | none =>
      match getLatestProcess jobs with
      | none => ([], 0, fgSt, jobs)
      | some p => cmdFgRun os fgSt jobs p

/-! ## Foreground-restoration lemmas -/

theorem wait_go_res (os : OS) (xs : List Int)
    (h : ∀ q : Int, os.waitRet q = q) : (waitTillAllPause.go os xs).2 = 0 := by
  induction xs with
  | nil => rfl
  | cons p rest ih => simp [waitTillAllPause.go, h p, ih]

theorem setFg_res_ok (os : OS) (fgSt fd g : Int)
    (htc : ∀ a b : Int, os.tcsetRet a b ≠ -1)
    (hsig : ∀ s : Int, os.sigactionRet s ≠ -1) :
    (setForegroundProcessGroup os fgSt fd g).2.1 ≠ -1 := by
  unfold setForegroundProcessGroup
  dsimp only
  split_ifs <;> simp_all

theorem finalFg_append (a : Int) (xs ys : List Event) :
    finalFg a (xs ++ ys) = finalFg (finalFg a xs) ys :=
  List.foldl_append _ _ xs ys

theorem finalFg_setFg (os : OS) (fgSt fd g a : Int)
    (htc : ∀ a b : Int, os.tcsetRet a b ≠ -1)
    (hsig : ∀ s : Int, os.sigactionRet s ≠ -1) :
    finalFg a (setForegroundProcessGroup os fgSt fd g).1 = g := by
  unfold setForegroundProcessGroup
  dsimp only
  split_ifs <;> simp_all [finalFg]

/-- Claim C4: whenever a foreground pipeline launch
(`manage_shell_subprocesses` with the background flag clear) or the `fg`
builtin finishes handling its job — every blocking state-change query
succeeds, so all members have stopped or exited — the terminal's
foreground process group is restored to the shell's own process group
before the function returns, and the run reports success. The terminal
foreground is single-valued (`finalFg` folds the successful `tcsetpgrp`
calls), so at every instant exactly one group owns it. -/
theorem foreground_restored_to_shell
    (os : OS) (fg0 : Int) (jobs : List Int) (l : List Int) (tIn tOut p : Int)
    (hwait : ∀ q : Int, os.waitRet q = q)
    (htc : ∀ a b : Int, os.tcsetRet a b ≠ -1)
    (hsig : ∀ s : Int, os.sigactionRet s ≠ -1)
    (hkill : ∀ a b : Int, os.killRet a b ≠ -1)
    (hpg : os.pgidOf p ≠ -1)
    (hst : waitTillPauseOrExit os p 0 ≠ -1) :
    (finalFg fg0 (manageShellSubprocesses os fg0 jobs (some l) tIn tOut false).1
        = os.pgidOf os.selfPid
      ∧ (manageShellSubprocesses os fg0 jobs (some l) tIn tOut false).2.1 = 0)
    ∧ (finalFg fg0 (cmdFgRun os fg0 jobs p).1 = os.pgidOf os.selfPid
      ∧ (cmdFgRun os fg0 jobs p).2.1 = 0) := by
  have hw : (waitTillAllPause os (some l)).2 = 0 := by
    rw [waitTillAllPause_some]; exact wait_go_res os _ hwait
  have hsg : ∀ g : Int, (startProcessGroup os g).2 = 0 := fun g => by
    simp [startProcessGroup, hkill _ _]
  constructor
  · have hf := setFg_res_ok os fg0 tIn (groupProcesses os (some l)).2 htc hsig
    have hf2 := setFg_res_ok os
      (setForegroundProcessGroup os fg0 tIn (groupProcesses os (some l)).2).2.2
      tIn (os.pgidOf os.selfPid) htc hsig
    constructor
    · simp only [manageShellSubprocesses, hw, hsg]
      norm_num [hf]
      rw [← List.append_assoc, ← List.append_assoc, ← List.append_assoc,
        ← List.append_assoc, finalFg_append]
      exact finalFg_setFg os _ tIn _ _ htc hsig
    · simp only [manageShellSubprocesses, hw, hsg]
      norm_num [hf, hf2]
  · have hf := setFg_res_ok os fg0 SHELL_INPUT_FILE_NUM p htc hsig
    have hf2 := setFg_res_ok os
      (setForegroundProcessGroup os fg0 SHELL_INPUT_FILE_NUM p).2.2
      SHELL_INPUT_FILE_NUM (os.pgidOf os.selfPid) htc hsig
    constructor
    · simp only [cmdFgRun, hpg]
      norm_num [hf, hst]
      rw [finalFg_append]
      exact finalFg_setFg os _ _ _ _ htc hsig
    · simp only [cmdFgRun, hpg]
      norm_num [hf, hf2, hst]

/-- Witness for C4 on the all-success oracle: a foreground launch of
`[5, 7]` and an `fg` of pid `5` both leave the shell's own group
(`1000`) as the terminal foreground group. -/
theorem foreground_restored_to_shell_witness :
    finalFg (-1) (manageShellSubprocesses osAllOk (-1) [] (some [5, 7, -1])
        0 1 false).1 = 1000
    ∧ finalFg (-1) (cmdFgRun osAllOk (-1) [5, -1] 5).1 = 1000 :=
  ⟨(foreground_restored_to_shell osAllOk (-1) [] [5, 7, -1] 0 1 5
      (fun _ => rfl) (fun _ _ => by norm_num [osAllOk]) (fun _ => by norm_num [osAllOk])
      (fun _ _ => by norm_num [osAllOk]) (by decide) (by decide)).1.1,
   (foreground_restored_to_shell osAllOk (-1) [5, -1] [5, 7, -1] 0 1 5
      (fun _ => rfl) (fun _ _ => by norm_num [osAllOk]) (fun _ => by norm_num [osAllOk])
      (fun _ _ => by norm_num [osAllOk]) (by decide) (by decide)).2.1⟩

/-- The inner loop of `cmd_wait` (`shell_command.c:127-137`) on one pid:
repeat the blocking status query until it fails (`-1`) or reports an
exit; mere stops are waited through. The result is the status that broke
the loop. -/
def cmdWaitOne (os : OS) (p : Int) : Int :=
  match (os.waitStatusSeq p).find? (fun s => s = -1 || wifexited s) with
  | some s => s
  | none => -1

/-- `cmd_wait` (`shell_command.c:117`): traverse the job list from the
latest entry (the traversal stops at the sentinel), run the inner wait
loop on each node, fetch the successor, then unlink the node. Returns
the final job list and the removed `(pid, breaking status)` pairs in
traversal order. -/
def cmdWait (os : OS) (l : List Int) : List Int × List (Int × Int) :=
  match l with
  | [] => ([], [])
  | x :: rest =>
      if x = -1 then (x :: rest, [])
      else
        let s := cmdWaitOne os x
        let r := cmdWait os rest
        (r.1, (x, s) :: r.2)

theorem wifexited_not_stopped (s : Int) (h : wifexited s = true) :
    wifstopped s = false := by
  simp only [wifexited, decide_eq_true_eq] at h
  simp only [wifstopped, decide_eq_false_iff_not]
  intro hc
  have h2 : s % 256 % 128 = s % 128 := Int.emod_emod_of_dvd s (by norm_num)
  rw [hc, h] at h2
  norm_num at h2

/-- Claim C8: `wait` returns only once the Job Table is empty (the
final list is the sentinel-only list, on which `get_latest_process`
reports no jobs), and — when no state-change query fails — every entry
removed during its execution broke the wait loop with an observed exit,
never a mere stop. -/
theorem wait_drains_jobs_only_on_exit (os : OS) (jobs : List Int)
    (hjobs : (-1 : Int) ∉ jobs)
    (hok : ∀ p ∈ jobs, cmdWaitOne os p ≠ -1) :
    (cmdWait os (jobs ++ [-1])).1 = initProcessList
    ∧ getLatestProcess (cmdWait os (jobs ++ [-1])).1 = none
    ∧ ∀ pr ∈ (cmdWait os (jobs ++ [-1])).2,
        wifexited pr.2 = true ∧ wifstopped pr.2 = false := by
  induction jobs with
  | nil =>
      refine ⟨rfl, rfl, ?_⟩
      intro pr hpr
      simp [cmdWait] at hpr
  | cons x rest ih =>
      have hx : x ≠ -1 := fun h => hjobs (by simp [h])
      have hrest : (-1 : Int) ∉ rest := fun h => hjobs (by simp [h])
      have hokr : ∀ p ∈ rest, cmdWaitOne os p ≠ -1 := fun p hp =>
        hok p (by simp [hp])
      obtain ⟨ih1, ih2, ih3⟩ := ih hrest hokr
      have hxok : cmdWaitOne os x ≠ -1 := hok x (by simp)
      have hxexit : wifexited (cmdWaitOne os x) = true := by
        unfold cmdWaitOne at hxok ⊢
        cases hfind : (os.waitStatusSeq x).find? (fun s => s = -1 || wifexited s) with
        | none => simp [hfind] at hxok
        | some s =>
            have hs := List.find?_some hfind
            simp only [Bool.or_eq_true, decide_eq_true_eq] at hs
            simp only [hfind] at hxok ⊢
            rcases hs with hs | hs
            · exact absurd hs hxok
            · exact hs
      have hstep : cmdWait os ((x :: rest) ++ [-1])
          = ((cmdWait os (rest ++ [-1])).1,
             (x, cmdWaitOne os x) :: (cmdWait os (rest ++ [-1])).2) := by
        rw [List.cons_append]
        simp [cmdWait, hx]
      refine ⟨?_, ?_, ?_⟩
      · rw [hstep]; exact ih1
      · rw [hstep]; exact ih2
      · intro pr hpr
        rw [hstep] at hpr
        rcases List.mem_cons.1 hpr with h | h
        · rw [h]
          exact ⟨hxexit, wifexited_not_stopped _ hxexit⟩
        · exact ih3 pr h

/-- An oracle whose status queries first report a stop (`0x137f`), then
an exit (`0`). -/
def osStopDemo : OS := { osAllOk with waitStatusSeq := fun _ => [4991, 0] }

/-- Witness for C8: one background job (pid 5) that is first observed
stopped and then observed exited; `wait` drains the table and the
removed entry corresponds to the exit. -/
theorem wait_drains_jobs_only_on_exit_witness :
    (cmdWait osStopDemo ([5] ++ [-1])).1 = initProcessList
    ∧ getLatestProcess (cmdWait osStopDemo ([5] ++ [-1])).1 = none
    ∧ ∀ pr ∈ (cmdWait osStopDemo ([5] ++ [-1])).2,
        wifexited pr.2 = true ∧ wifstopped pr.2 = false :=
  wait_drains_jobs_only_on_exit osStopDemo [5] (by decide) (by decide)

/-! ## `shell_signal.c` and the child-side launch paths -/

/-- `reset_ignored_signals` (`shell_signal.c:86`): set each ignored
signal's disposition back to `SIG_DFL`, stopping at the first failing
`sigaction`. -/
def resetIgnoredSignalsTrace (os : OS) : List Event :=
  go ignoredSignals
where
  go : List Int → List Event
  | [] => []
  | s :: rest =>
      if os.sigactionRet s = -1 then [Event.sigactionDefault s]
      else Event.sigactionDefault s :: go rest

/-- The child branch of `execute_program` (`program.c:142-151`): raise
`SIGSTOP` on itself, then replace the image. No signal dispositions are
touched. -/
def executeProgramChild (os : OS) (path : String) : List Event :=
  [Event.signal os.selfPid SIGSTOP, Event.execv path]

/-- `execute_with_redirection` (`program_piping.c:455-496`), run inside
a pipeline-member child: remap standard input/output to the pipe ends,
raise `SIGSTOP` on itself, reset the ignored signals, then replace the
image. A failing `dup2` exits with status 1. -/
def executeWithRedirection (os : OS) (path : Option String)
    (args : Option (List String)) (inFd outFd : Int) : List Event :=
  match path, args with
  | none, _ => [Event.exitCall 1]
  | some _, none => [Event.exitCall 1]
  | some fp, some _ =>
    let tail2 := [Event.signal os.selfPid SIGSTOP]
      ++ resetIgnoredSignalsTrace os ++ [Event.execv fp]
    let outPart :=
      if outFd ≠ 1 then
        if os.dup2Ret outFd 1 = -1 then [Event.dup2 outFd 1, Event.exitCall 1]
        else [Event.dup2 outFd 1, Event.closeFd outFd] ++ tail2
      else tail2
    if inFd ≠ 0 then
      if os.dup2Ret inFd 0 = -1 then [Event.dup2 inFd 0, Event.exitCall 1]
      else [Event.dup2 inFd 0, Event.closeFd inFd] ++ outPart
    else outPart

/-- The child branch of `execute_redirected_program`
(`program_redirection.c:254-305`): open the redirection file, remap
standard input or output onto it, then replace the image directly — the
source raises no stop signal and resets no disposition here. -/
def executeRedirectedProgramChild (os : OS) (redirectionType : Int)
    (fileName : String) (path : String) : List Event :=
  let openPart : List Event × Int :=
    if redirectionType = -1 then ([Event.openFile fileName], os.openRet fileName)
    else if redirectionType = 1 then ([Event.openFile fileName], os.openRet fileName)
    else ([], -1)
  if openPart.2 = -1 then openPart.1 ++ [Event.exitCall 1]
  else
    let dupPart : List Event × Int :=
      if redirectionType = -1 then
        ([Event.dup2 openPart.2 0], os.dup2Ret openPart.2 0)
      else if redirectionType = 1 then
        ([Event.dup2 openPart.2 1], os.dup2Ret openPart.2 1)
      else ([], -1)
    if dupPart.2 = -1 then openPart.1 ++ dupPart.1 ++ [Event.exitCall 1]
    else openPart.1 ++ dupPart.1 ++ [Event.closeFd openPart.2]
      ++ [Event.execv path]

theorem resetIgnoredSignals_all_ok (os : OS)
    (hsig : ∀ s : Int, os.sigactionRet s ≠ -1) :
    resetIgnoredSignalsTrace os = ignoredSignals.map Event.sigactionDefault := by
  unfold resetIgnoredSignalsTrace
  have : ∀ xs : List Int, resetIgnoredSignalsTrace.go os xs
      = xs.map Event.sigactionDefault := by
    intro xs
    induction xs with
    | nil => rfl
    | cons s rest ih => simp [resetIgnoredSignalsTrace.go, hsig s, ih]
  exact this ignoredSignals

theorem precedes_in_child_tail (os : OS) (fp : String) (e : Event)
    (he : e ∈ [Event.signal os.selfPid SIGSTOP] ++ resetIgnoredSignalsTrace os) :
    precedes e (Event.execv fp)
      ([Event.signal os.selfPid SIGSTOP]
        ++ resetIgnoredSignalsTrace os ++ [Event.execv fp]) :=
  precedes_of_mem_append he (by simp)

theorem executeWithRedirection_success_shape (os : OS) (fp : String)
    (args : List String) (inFd outFd : Int)
    (hdin : os.dup2Ret inFd 0 ≠ -1) (hdout : os.dup2Ret outFd 1 ≠ -1) :
    ∃ pre : List Event,
      executeWithRedirection os (some fp) (some args) inFd outFd
        = pre ++ ([Event.signal os.selfPid SIGSTOP]
            ++ resetIgnoredSignalsTrace os ++ [Event.execv fp]) := by
  by_cases hin : inFd = 0
  · by_cases hout : outFd = 1
    · exact ⟨[], by simp [executeWithRedirection, hin, hout]⟩
    · exact ⟨[Event.dup2 outFd 1, Event.closeFd outFd],
        by simp [executeWithRedirection, hin, hout, hdout]⟩
  · by_cases hout : outFd = 1
    · exact ⟨[Event.dup2 inFd 0, Event.closeFd inFd],
        by simp [executeWithRedirection, hin, hout, hdin]⟩
    · exact ⟨[Event.dup2 inFd 0, Event.closeFd inFd]
          ++ [Event.dup2 outFd 1, Event.closeFd outFd],
        by simp [executeWithRedirection, hin, hout, hdin, hdout]⟩

/-- Counterexample for C3: the child created for a redirected command
(`execute_redirected_program`) never raises a stop signal on itself —
no signal event at all appears in its trace, so the claimed universal
self-stop fails on this launch path. -/
theorem redirected_child_never_self_stops :
    Event.signal 1000 SIGSTOP ∉
      executeRedirectedProgramChild osAllOk 1 "out.txt" "/bin/cat" := by decide

/-- Claim C3 (amended): the children created for a simple command
(`execute_program`) and for a pipeline member
(`execute_with_redirection`) raise `SIGSTOP` on themselves before they
replace their image; the child created for a redirected command
(`execute_redirected_program`) does not — its parent instead blocks
until it terminates. -/
theorem child_self_stop_before_exec (os : OS) (fp fn : String)
    (args : List String) (inFd outFd rt : Int)
    (hdin : os.dup2Ret inFd 0 ≠ -1) (hdout : os.dup2Ret outFd 1 ≠ -1) :
    precedes (Event.signal os.selfPid SIGSTOP) (Event.execv fp)
      (executeProgramChild os fp)
    ∧ precedes (Event.signal os.selfPid SIGSTOP) (Event.execv fp)
      (executeWithRedirection os (some fp) (some args) inFd outFd)
    ∧ Event.signal os.selfPid SIGSTOP ∉
        executeRedirectedProgramChild os rt fn fp := by
  refine ⟨⟨0, 1, by omega, rfl, rfl⟩, ?_, ?_⟩
  · obtain ⟨pre, hpre⟩ :=
      executeWithRedirection_success_shape os fp args inFd outFd hdin hdout
    rw [hpre]
    exact precedes_append_right pre (precedes_in_child_tail os fp _ (by simp))
  · unfold executeRedirectedProgramChild
    dsimp only
    split_ifs <;> simp

/-- Witness for C3 (amended) on the all-success oracle: the pipeline
member with fds 3/4 self-stops before `execv`. -/
theorem child_self_stop_before_exec_witness :
    precedes (Event.signal 1000 SIGSTOP) (Event.execv "/bin/cat")
      (executeWithRedirection osAllOk (some "/bin/cat") (some ["cat"]) 3 4) :=
  (child_self_stop_before_exec osAllOk "/bin/cat" "f" ["cat"] 3 4 1
    (by norm_num [osAllOk]) (by norm_num [osAllOk])).2.1

/-- Counterexample for C5: the child created for a simple command
(`execute_program`) execs without resetting any ignored-signal
disposition — no `sigaction` event appears in its trace. -/
theorem simple_child_keeps_ignored_dispositions :
    Event.sigactionDefault SIGINT ∉ executeProgramChild osAllOk "/bin/cat" := by
  decide

/-- Claim C5 (amended): only the pipeline-member child
(`execute_with_redirection`) resets the ignored dispositions (SIGINT,
SIGQUIT, SIGTSTP) to default before it execs; the simple-command child
and the redirected-command child exec without touching any
disposition. -/
theorem only_pipeline_child_resets_ignored_signals (os : OS) (fp fn : String)
    (args : List String) (inFd outFd rt : Int)
    (hdin : os.dup2Ret inFd 0 ≠ -1) (hdout : os.dup2Ret outFd 1 ≠ -1)
    (hsig : ∀ s : Int, os.sigactionRet s ≠ -1) :
    (∀ s ∈ ignoredSignals,
      precedes (Event.sigactionDefault s) (Event.execv fp)
        (executeWithRedirection os (some fp) (some args) inFd outFd))
    ∧ (∀ s : Int, Event.sigactionDefault s ∉ executeProgramChild os fp)
    ∧ (∀ s : Int, Event.sigactionDefault s ∉
        executeRedirectedProgramChild os rt fn fp) := by
  refine ⟨?_, ?_, ?_⟩
  · intro s hs
    obtain ⟨pre, hpre⟩ :=
      executeWithRedirection_success_shape os fp args inFd outFd hdin hdout
    rw [hpre]
    refine precedes_append_right pre (precedes_in_child_tail os fp _ ?_)
    refine List.mem_append_right _ ?_
    rw [resetIgnoredSignals_all_ok os hsig]
    exact List.mem_map_of_mem _ hs
  · intro s
    simp [executeProgramChild]
  · intro s
    unfold executeRedirectedProgramChild
    dsimp only
    split_ifs <;> simp

/-- Witness for C5 (amended): the pipeline member resets SIGINT to
default before `execv` on the all-success oracle. -/
theorem only_pipeline_child_resets_ignored_signals_witness :
    precedes (Event.sigactionDefault SIGINT) (Event.execv "/bin/cat")
      (executeWithRedirection osAllOk (some "/bin/cat") (some ["cat"]) 3 4) :=
  (only_pipeline_child_resets_ignored_signals osAllOk "/bin/cat" "f" ["cat"]
    3 4 1 (by norm_num [osAllOk]) (by norm_num [osAllOk])
    (fun _ => by norm_num [osAllOk])).1 SIGINT (by decide)

/-! ## `program_piping.c` — the piped launcher -/

/-- `resolve_executable_full_paths` (`program_piping.c:176`): resolve
each name in order, failing (NULL) as soon as one resolution fails. -/
def resolveExecutableFullPaths (os : OS) (names : List String) :
    Option (List String) :=
  match names with
  | [] => some []
  | nm :: rest =>
      match os.resolvePath nm with
      | none => none
      | some p =>
          match resolveExecutableFullPaths os rest with
          | none => none
          | some ps => some (p :: ps)

/-- Result of `execute_piped_program`: the parent's trace, the returned
pid-array value (slot by slot; `none` marks a slot the source never
wrote), and whether the returned array had already been freed when it
was returned. -/
structure PipedResult where
  trace : List Event
  ret : Option (List (Option Int))
  retFreed : Bool
  deriving DecidableEq, Repr

/-- The subprocess-creation loop of `execute_piped_program`
(`program_piping.c:548-603`). `tmpFd` plays `tempFileNum` (initially
standard input), `buf` the pid array. A failing `fork` frees the pid
array and breaks out of the loop; the array value at that point is kept
here so that the dangling pointer the function then returns can be
stated. -/
def pipedLoop (os : OS) (n : Nat) (idxs : List Nat) (tmpFd : Int)
    (buf : List (Option Int)) : List Event × List (Option Int) × Bool :=
  match idxs with
  | [] => ([], buf, false)
  | index :: rest =>
    let hasPipe := index < n - 1
    let pf := os.pipeFds index
    let pipeEvs : List Event :=
      if hasPipe then [Event.pipeCall pf.1 pf.2] else []
    let inputFd := tmpFd
    let outputFd : Int := if hasPipe then pf.2 else 1
    let newTmp : Int := if hasPipe then pf.1 else -1
    let pid := os.forkRet index
    if pid = -1 then (pipeEvs ++ [Event.forkCall pid], buf, true)
    else
      let buf1 := buf.set index (some pid)
      let closeEvs :=
        (if inputFd ≠ 0 then [Event.closeFd inputFd] else [])
        ++ (if outputFd ≠ 1 then [Event.closeFd outputFd] else [])
      let r := pipedLoop os n rest newTmp buf1
      (pipeEvs ++ [Event.forkCall pid] ++ closeEvs ++ r.1, r.2.1, r.2.2)

/-- `execute_piped_program` (`program_piping.c:510`): resolve every
program name first — aborting with NULL before any process exists on a
resolution failure — then fork one child per program, wiring adjacent
programs with pipes. The pid array is sized `n + 1` with slots `0..n-1`
preset to `-1`; the source never writes the final slot. -/
def executePipedProgram (os : OS) (names : Option (List String))
    (argLists : Option (List (List String))) : PipedResult :=
  match names, argLists with
  | none, _ => { trace := [], ret := none, retFreed := false }
  | some _, none => { trace := [], ret := none, retFreed := false }
  | some nms, some _ =>
      match resolveExecutableFullPaths os nms with
      | none => { trace := [], ret := none, retFreed := false }
      | some paths =>
          let n := paths.length
          let buf0 : List (Option Int) :=
            (List.replicate n (some (-1))).concat none
          let r := pipedLoop os n (List.range n) 0 buf0
          { trace := r.1, ret := some r.2.1, retFreed := r.2.2 }

theorem resolve_fails_of_mem (os : OS) (nms : List String) (nm : String)
    (hmem : nm ∈ nms) (hnone : os.resolvePath nm = none) :
    resolveExecutableFullPaths os nms = none := by
  induction nms with
  | nil => simp at hmem
  | cons a rest ih =>
      rcases List.mem_cons.1 hmem with rfl | hm
      · simp [resolveExecutableFullPaths, hnone]
      · unfold resolveExecutableFullPaths
        cases h : os.resolvePath a with
        | none => rfl
        | some p => simp [ih hm]

/-- Claim C6: if resolving any program name of the Pipeline fails, the
launch fails with the NULL result before any OS process is created — the
trace holds no `fork` call (indeed no event at all). -/
theorem resolution_failure_aborts_before_any_fork (os : OS)
    (nms : List String) (argLists : List (List String))
    (hfail : ∃ nm ∈ nms, os.resolvePath nm = none) :
    (executePipedProgram os (some nms) (some argLists)).ret = none
    ∧ (executePipedProgram os (some nms) (some argLists)).trace = []
    ∧ ∀ v : Int, Event.forkCall v ∉
        (executePipedProgram os (some nms) (some argLists)).trace := by
  obtain ⟨nm, hmem, hnone⟩ := hfail
  have hres := resolve_fails_of_mem os nms nm hmem hnone
  refine ⟨?_, ?_, ?_⟩ <;> simp [executePipedProgram, hres]

/-- An oracle on which no program name resolves. -/
def osNoProg : OS := { osAllOk with resolvePath := fun _ => none }

/-- Witness for C6: launching `nosuch | b` when `nosuch` does not
resolve creates no process. -/
theorem resolution_failure_aborts_before_any_fork_witness :
    (executePipedProgram osNoProg (some ["nosuch", "b"])
        (some [["nosuch"], ["b"]])).ret = none
    ∧ (executePipedProgram osNoProg (some ["nosuch", "b"])
        (some [["nosuch"], ["b"]])).trace = [] :=
  ⟨(resolution_failure_aborts_before_any_fork osNoProg ["nosuch", "b"]
      [["nosuch"], ["b"]] ⟨"nosuch", by simp, rfl⟩).1,
   (resolution_failure_aborts_before_any_fork osNoProg ["nosuch", "b"]
      [["nosuch"], ["b"]] ⟨"nosuch", by simp, rfl⟩).2.1⟩

/-- An oracle whose second `fork` call fails. -/
def osForkFailSecond : OS :=
  { osAllOk with forkRet := fun n => if n = 0 then 100 else -1 }

/-- Claim C7 (code bug): when the second `fork` of the two-command
pipeline `a | b` fails, the source frees the pid array inside the
failure branch (`program_piping.c:574`), breaks out of the loop, and
still returns that pointer (`program_piping.c:609`): the already-created
sibling (pid 100) sits in an array that has been freed by the time it is
returned, and no error indication accompanies the non-NULL return, so
the caller cannot validly group and wait on the partial pipeline. -/
theorem fork_failure_returns_freed_array :
    (executePipedProgram osForkFailSecond (some ["a", "b"])
        (some [["a"], ["b"]])).retFreed = true
    ∧ (executePipedProgram osForkFailSecond (some ["a", "b"])
        (some [["a"], ["b"]])).ret = some [some 100, some (-1), none] := by
  decide

/-! ## Parsing: `program_piping.c` and `program_redirection.c` -/

/-- `is_pipe_symbol` (`program_piping.c:17`). -/
def isPipeSymbol (tok : String) : Bool := tok = "|"

/-- `contains_piping` (`program_piping.c:36`). -/
def containsPiping (ts : List String) : Bool := ts.any isPipeSymbol

/-- `count_piped_processes` (`program_piping.c:67`): 1 for a nonempty
token list, plus one for every program call that follows a pipe symbol;
a trailing pipe is silently ignored (`[A | ] => 1` per the source's own
doc comment). -/
def countPipedProcesses (ts : List String) : Nat :=
  if ts = [] then 0
  else (ts.foldl (fun (st : Nat × Bool) tok =>
    if isPipeSymbol tok then (st.1, true)
    else if st.2 then (st.1 + 1, false)
    else (st.1, false)) (1, false)).1

/-- `get_piped_program_names` (`program_piping.c:228`): collect each
token that follows a pipe symbol (the flag starts true, so the first
token is collected).  The C array is sized by `count_piped_processes`
and zeroed, so reading it stops at the first never-written slot: the
collected prefix below. -/
def getPipedProgramNames (ts : List String) : List String :=
  (ts.foldl (fun (st : List String × Bool) tok =>
    if isPipeSymbol tok then (st.1, true)
    else if st.2 then (st.1 ++ [tok], false)
    else (st.1, false)) ([], true)).1

/-- Write `v` at slot `i`; `none` when the write is out of bounds, which
in the source is an out-of-bounds array write (undefined behavior). -/
def writeAt (l : List (Option Int)) (i : Nat) (v : Int) :
    Option (List (Option Int)) :=
  if i < l.length then some (l.set i (some v)) else none

/-- The first loop of `get_piped_program_arguments`
(`program_piping.c:318-332`): record each segment's running length at
`argListIndex`; `startIndex` begins at `-1` and is reset to each pipe's
position. Slots for segments that receive no token stay uninitialized
(`none`); slot `n` is preset to `-1`. -/
def argListLengthsLoop (ts : List String) (n : Nat) :
    Option (List (Option Int)) :=
  (ts.enum.foldl (fun (st : Option (List (Option Int)) × Nat × Int) pair =>
    match st.1 with
    | none => (none, st.2.1, st.2.2)
    | some lens =>
        if isPipeSymbol pair.2 then (some lens, st.2.1 + 1, (pair.1 : Int))
        else
          match writeAt lens st.2.1 ((pair.1 : Int) - st.2.2) with
          | none => (none, st.2.1, st.2.2)
          | some lens1 => (some lens1, st.2.1, st.2.2))
    (some ((List.replicate n none).concat (some (-1))), 0, -1)).1

/-- Write token `tok` at argument slot `j` of list `i`; `none` on an
out-of-bounds access (undefined behavior in the source). -/
def writeAt2 (ls : List (List (Option String))) (i j : Nat) (tok : String) :
    Option (List (List (Option String))) :=
  match ls.get? i with
  | none => none
  | some inner =>
      if j < inner.length then some (ls.set i (inner.set j (some tok)))
      else none

/-- The extraction loop of `get_piped_program_arguments`
(`program_piping.c:374-389`): scatter the tokens into the argument
lists; a pipe symbol resets the argument index and advances to the next
list. -/
def argListsFill (ts : List String) (ls0 : List (List (Option String))) :
    Option (List (List (Option String))) :=
  (ts.foldl (fun (st : Option (List (List (Option String))) × Nat × Nat) tok =>
    match st.1 with
    | none => (none, st.2.1, st.2.2)
    | some ls =>
        if isPipeSymbol tok then (some ls, st.2.1 + 1, 0)
        else
          match writeAt2 ls st.2.1 st.2.2 tok with
          | none => (none, st.2.1, st.2.2)
          | some ls1 => (some ls1, st.2.1, st.2.2 + 1))
    (some ls0, 0, 0)).1

/-- `get_piped_program_arguments` (`program_piping.c:289`): record the
segment lengths, allocate one argument list per counted process (a
still-uninitialized length slot means the allocation reads garbage —
undefined behavior, `none`), then scatter the tokens. -/
def getPipedProgramArguments (ts : List String) :
    Option (List (List (Option String))) :=
  let n := countPipedProcesses ts
  if n = 0 then some []
  else
    match argListLengthsLoop ts n with
    | none => none
    | some lens =>
        match (lens.take n).mapM (fun o =>
            o.map (fun k => (List.replicate k.toNat none : List (Option String)))) with
        | none => none
        | some ls0 => argListsFill ts ls0

/-- `parse_piping_tokens` (`program_piping.c:409`): names, then argument
lists. No syntax validation occurs on this path: only allocation
failures (unmodelled) or undefined behavior stop it. -/
def parsePipingTokens (ts : List String) :
    Option (List String × List (List (Option String))) :=
  match getPipedProgramArguments ts with
  | none => none
  | some args => some (getPipedProgramNames ts, args)

/-- `is_redirect_symbol` (`program_redirection.c:19`). -/
def isRedirectSymbol (tok : String) : Int :=
  if tok = "<" then -1 else if tok = ">" then 1 else 0

/-- `get_redirection_file_name` (`program_redirection.c:68`): the first
token that follows a redirection symbol; failure when a redirection
symbol is never followed by a non-symbol token. -/
def getRedirectionFileName (ts : List String) : Option String :=
  go ts false
where
  go : List String → Bool → Option String
  | [], _ => none
  | t :: rest, enc =>
      if isRedirectSymbol t ≠ 0 then go rest true
      else if enc then some t
      else go rest false

/-- `get_redirected_program_argument` (`program_redirection.c:126`): the
tokens before the first redirection symbol. -/
def getRedirectedProgramArgument (ts : List String) : List String :=
  ts.takeWhile (fun t => isRedirectSymbol t = 0)

/-- `parse_redirection_tokens` (`program_redirection.c:178`): fails
exactly when the file name cannot be extracted;
`get_redirected_program_name` always succeeds with token 0 (the C NULL,
here `none`, for an empty line). -/
def parseRedirectionTokens (ts : List String) :
    Option (Option String × List String × String) :=
  match getRedirectionFileName ts with
  | none => none
  | some f => some (ts.head?, getRedirectedProgramArgument ts, f)

/-- Counterexample for C9: the malformed command `A |` — a pipe operator
at the end of the line — is accepted by `parse_piping_tokens` as the
one-command pipeline `A` with arguments `[A]`, instead of failing with a
parse error. -/
theorem trailing_pipe_accepted :
    parsePipingTokens ["A", "|"] = some (["A"], [[some "A"]]) := by decide

/-- Claim C9 (amended): of the malformed forms, only the
missing-filename case is detected by an explicit check: whenever no
token follows the redirection symbols, `parse_redirection_tokens` fails,
aborting only the current command line. A pipe operator at the end of
the line is not rejected: the trailing pipe is silently dropped and the
input is accepted as the pipeline without the empty segment. A pipe
operator at the start of the line, or an empty command segment between
pipes, yields neither a valid Pipeline nor a reported parse error: the
length-recording loop of `get_piped_program_arguments` leaves a
never-written slot that the allocation loop then reads — undefined
behavior (`none` in this model). -/
theorem parse_rejects_only_missing_filename (ts : List String)
    (h : getRedirectionFileName ts = none) :
    parseRedirectionTokens ts = none
    ∧ parsePipingTokens ["A", "|"] = some (["A"], [[some "A"]])
    ∧ parsePipingTokens ["|", "A"] = none
    ∧ parsePipingTokens ["A", "|", "|", "B"] = none :=
  ⟨by simp [parseRedirectionTokens, h], by decide, by decide, by decide⟩

/-- Witness for C9 (amended): `A >` lacks a filename and is rejected. -/
theorem parse_rejects_only_missing_filename_witness :
    parseRedirectionTokens ["A", ">"] = none :=
  (parse_rejects_only_missing_filename ["A", ">"] (by decide)).1

end Shell
